import Mathlib

/-!
Verification of the client-side chat synchronization core of the nego-lah
repository (frontend/src/hooks/useChat.ts and the realtime handlers of
frontend/src/pages/Admin.tsx), shallowly embedded in Lean.

Conventions of the embedding:
* TypeScript strings are Lean `String`s; JavaScript `substring`, `split`,
  `trim`, `startsWith` and truthiness checks are modelled by executable
  helpers on the underlying `List Char` (`jsTake`, `jsSplitNN`, `jsTrim`,
  `jsStartsWith`, `jsOr`).  JS string indices count UTF-16 units while Lean
  counts characters; all contents relevant here are ASCII so the two agree.
* `role` and `source` are modelled as raw strings: the TS union types are
  erased at runtime and the handlers compare plain strings coming over the
  wire.  Optional fields become `Option`.
* `Date` values are opaque here; they are modelled as `Nat` instants passed
  in by the event loop.  `crypto.randomUUID()` results are modelled as id
  strings supplied by the caller.
* Each async handler of the hook becomes a pure state-transition function;
  the single-threaded event loop is modelled by applying the transitions in
  sequence.
-/

/-- JS `s.substring(0, n)` (by characters). -/
def jsTake (s : String) (n : Nat) : String := ⟨s.data.take n⟩

/-- JS `s.trim()` restricted to the ASCII whitespace actually occurring here. -/
def jsTrim (s : String) : String :=
  ⟨((s.data.dropWhile Char.isWhitespace).reverse.dropWhile Char.isWhitespace).reverse⟩

/-- Truthiness of `s.trim()` (used by `.filter(p => p.trim())`). -/
def trimNonempty (s : String) : Bool := s.data.any (fun c => !c.isWhitespace)

/-- JS `s.includes('\n\n')`. -/
def hasNN : List Char → Bool
  | [] => false
  | '\n' :: '\n' :: _ => true
  | _ :: rest => hasNN rest

/-- Worker for `jsSplitNN`: JS `s.split('\n\n')`, scanning left to right,
accumulating the current segment in reverse. -/
def splitNNAux : List Char → List Char → List (List Char)
  | [], acc => [acc.reverse]
  | '\n' :: '\n' :: rest, acc => acc.reverse :: splitNNAux rest []
  | c :: rest, acc => splitNNAux rest (c :: acc)

/-- JS `s.split('\n\n')`. -/
def jsSplitNN (s : String) : List String :=
  (splitNNAux s.data []).map (fun l => ⟨l⟩)

/-- JS `s.startsWith(p)`. -/
def jsStartsWith (s p : String) : Bool := p.data.isPrefixOf s.data

/-- JS `o || d` for an optional string (empty string is falsy). -/
def jsOr (o : Option String) (d : String) : String :=
  match o with
  | some s => if s = "" then d else s
  | none => d

/-- `a` is an initial segment of `b`. -/
def PrefixOfStr (a b : String) : Prop := ∃ u : String, a ++ u = b

/-- Role mapping at the backend boundary: `'human' -> 'user'`, `'ai' -> 'assistant'`,
anything else passes through (useChat.ts lines 56-58, 425-427, 499-501). -/
def normalizeRole (r : String) : String :=
  if r = "human" then "user" else if r = "ai" then "assistant" else r

/-- Attachment descriptor built from a `File` (useChat.ts lines 6-10). -/
structure Attachment where
  name : String
  mime : String
  url : String
deriving DecidableEq, Repr

/-- A chat message of the Message Store (useChat.ts lines 12-19). -/
structure Message where
  id : String
  role : String
  content : String
  timestamp : Nat
  attachments : Option (List Attachment) := none
  source : Option String := none
deriving DecidableEq, Repr

/-- The `ChatState` React state (useChat.ts lines 21-25). -/
structure ChatState where
  messages : List Message
  isLoading : Bool
  error : Option String
deriving DecidableEq, Repr

/-- The hook state relevant to playback: chat state plus the
`isTypingRef` mutual-exclusion flag (useChat.ts line 36). -/
structure Session where
  chat : ChatState
  isTyping : Bool
deriving DecidableEq, Repr

/-- Closure state of the `typeCharWithCallback` animation
(useChat.ts lines 242-244): the pre-split paragraphs, `paragraphIndex`,
`charIndex`, and whether the recursive scheduling has stopped. -/
structure Anim where
  paragraphs : List String
  pIdx : Nat
  chIdx : Nat
  finished : Bool
deriving DecidableEq, Repr

/-- A raw backend history message (`{role, content, source?}`). -/
structure BackendMsg where
  role : String
  content : String
  source : Option String := none
deriving DecidableEq, Repr

/-- A message of the stored conversation row delivered by a
`postgres_changes` event (`{id?, role, content, timestamp, source?}`). -/
structure DbMsg where
  id : Option String
  role : String
  content : String
  timestamp : Nat
  source : Option String := none
deriving DecidableEq, Repr

/-- Payload of a `new_message` broadcast (`{role, content, source, timestamp}`). -/
structure BMsg where
  role : String
  content : String
  source : String
  timestamp : Option String := none
deriving DecidableEq, Repr

/-- A message as stored in the Admin panel's `selectedUserChat.messages`
(no client id; raw backend roles). -/
structure AdminMsg where
  role : String
  content : String
  source : Option String := none
  timestamp : String
deriving DecidableEq, Repr

/-- The Admin panel's selected conversation. -/
structure AdminChat where
  userId : String
  messages : List AdminMsg
deriving DecidableEq, Repr

/-- Full hook state at mount time (history flags of useChat.ts lines 34-35). -/
structure Hook where
  chat : ChatState
  isTyping : Bool
  historyLoaded : Bool
  historyLoading : Bool
deriving DecidableEq, Repr

/-- Initial hook state (useChat.ts lines 28-36). -/
def initialHook : Hook :=
  { chat := { messages := [], isLoading := false, error := none },
    isTyping := false, historyLoaded := false, historyLoading := true }

/-- Initial session. -/
def initialSession : Session :=
  { chat := { messages := [], isLoading := false, error := none }, isTyping := false }

/-- Outcome of the `GET /chat/settings` fetch as observed by `sendMessage`
(useChat.ts lines 120-129). -/
inductive SettingsResult
  | fetchError
  | notOk
  | ok (ai_enabled : Option Bool)
deriving DecidableEq, Repr

/-- Outcome of the history fetch (useChat.ts lines 46-49): rejected fetch,
non-ok response, ok body without a `messages` array, or a `messages` array. -/
inductive HistoryResult
  | fetchError
  | notOk
  | okNoMessages
  | ok (msgs : List BackendMsg)
deriving DecidableEq, Repr

/-- Outcome of the `GET /chat/history?limit&offset` fetch used by
`loadMoreMessages` (useChat.ts lines 493-496). -/
inductive LoadMoreResult
  | fetchError
  | notOk
  | okNoMessages
  | ok (msgs : List BackendMsg)
deriving DecidableEq, Repr

/-- Map over a list together with the running index (JS `forEach((x, idx) => ...)`). -/
def mapWithIndex (f : Nat → α → β) : Nat → List α → List β
  | _, [] => []
  | i, a :: rest => f i a :: mapWithIndex f (i + 1) rest

/-- Id `history-${idx}` of an unsplit history message (useChat.ts line 74). -/
def historyId (i : Nat) : String := "history-" ++ Nat.repr i

/-- Id `history-${idx}-${pIdx}` of a paragraph-split history message
(useChat.ts line 65); `loadMoreMessages` builds `history-${count+idx}-${Date.now()}`
with the same shape (line 504). -/
def historyParaId (i p : Nat) : String :=
  "history-" ++ Nat.repr i ++ "-" ++ Nat.repr p

/-- Id `${assistantMessageId}-${pIdx}` of a paragraph-split live message
(useChat.ts lines 254, 285-287). -/
def paraId (base : String) (p : Nat) : String := base ++ "-" ++ Nat.repr p

/-- Conversion of one backend history message (useChat.ts lines 54-81):
`'ai'` messages with nonempty content containing a double newline are
exploded into one trimmed message per nonblank paragraph; everything else
becomes a single role-normalized message. -/
def convertHistoryMsg (idx : Nat) (m : BackendMsg) (now : Nat) : List Message :=
  if m.role = "ai" && !(m.content = "") && hasNN m.content.data then
    mapWithIndex (fun pIdx p =>
      { id := historyParaId idx pIdx, role := "assistant", content := jsTrim p,
        timestamp := now, source := some (jsOr m.source "ai") })
      0 ((jsSplitNN m.content).filter trimNonempty)
  else
    [{ id := historyId idx, role := normalizeRole m.role, content := m.content,
       timestamp := now, source := m.source }]

/-- The whole `data.messages.forEach` conversion of `loadHistory`
(useChat.ts lines 52-81). -/
def historyFrom (now : Nat) : Nat → List BackendMsg → List Message
  | _, [] => []
  | idx, m :: rest => convertHistoryMsg idx m now ++ historyFrom now (idx + 1) rest

/-- Messages produced by a successful history load. -/
def loadHistoryMessages (data : List BackendMsg) (now : Nat) : List Message :=
  historyFrom now 0 data

/-- The mount effect around `loadHistory` (useChat.ts lines 39-99).  Returns
the new hook state and whether a network fetch was issued: conversation ids
carrying the `guest-` marker (or an empty id) skip the backend entirely. -/
def historyMount (userId : String) (res : HistoryResult) (now : Nat) (h : Hook) :
    Hook × Bool :=
  if !(userId = "") && !(jsStartsWith userId "guest-") then
    if h.historyLoaded then (h, false)
    else
      let h1 : Hook := { h with historyLoading := true }
      let h2 : Hook :=
        match res with
        | .ok msgs =>
          { h1 with chat := { h1.chat with messages := loadHistoryMessages msgs now } }
        | _ => h1
      ({ h2 with historyLoaded := true, historyLoading := false }, true)
  else
    ({ h with historyLoaded := true, historyLoading := false }, false)

/-- `aiEnabled` as resolved from the settings fetch (useChat.ts lines 120-129):
initialized `true`, overwritten only by `data.ai_enabled ?? true` of an ok
response; a rejected fetch or non-ok response leaves it `true`. -/
def resolveAiEnabled : SettingsResult → Bool
  | .fetchError => true
  | .notOk => true
  | .ok none => true
  | .ok (some b) => b

/-- The optimistic user message (useChat.ts lines 111-117). -/
def mkUserMessage (id text : String) (atts : List Attachment) (now : Nat) : Message :=
  { id := id, role := "user", content := text, timestamp := now,
    attachments := if atts.length > 0 then some atts else none, source := none }

/-- The empty assistant placeholder (useChat.ts lines 131-138). -/
def mkPlaceholder (id : String) (now : Nat) : Message :=
  { id := id, role := "assistant", content := "", timestamp := now,
    attachments := none, source := some "ai" }

/-- First synchronous stage of `sendMessage` (useChat.ts lines 103-162):
append the user message and, exactly when the resolved `aiEnabled` is true,
the empty assistant placeholder plus the loading state.  Returns the new
chat state and `assistantMessageAdded`. -/
def sendMessageStart (userMsgId placeholderId text : String) (atts : List Attachment)
    (settings : SettingsResult) (now : Nat) (st : ChatState) : ChatState × Bool :=
  let userMessage := mkUserMessage userMsgId text atts now
  let assistantPlaceholder := mkPlaceholder placeholderId now
  if resolveAiEnabled settings then
    ({ st with
        messages := st.messages ++ [userMessage, assistantPlaceholder]
        isLoading := true
        error := none }, true)
  else
    ({ st with
        messages := st.messages ++ [userMessage]
        isLoading := false
        error := none }, false)

/-- Paragraph pre-split of the completed response (useChat.ts lines 238-240). -/
def splitParagraphs (fullContent : String) : List String :=
  if hasNN fullContent.data then (jsSplitNN fullContent).filter trimNonempty
  else [fullContent]

/-- Handler of the terminal `{done: true, content}` stream event
(useChat.ts lines 225-269): skip when nothing was added and the content is
empty; otherwise stop loading, replace the placeholder in place by one empty
message per paragraph (ids `<placeholderId>-<pIdx>` when there are several),
set the `isTypingRef` guard, and initialize the animation closure. -/
def handleDone (placeholderId : String) (added : Bool) (content : String)
    (now : Nat) (s : Session) : Anim × Session :=
  if added = false && content = "" then
    ({ paragraphs := [], pIdx := 0, chIdx := 0, finished := true }, s)
  else
    let paragraphs := splitParagraphs content
    let newMessages := s.chat.messages.flatMap (fun m =>
      if m.id = placeholderId then
        mapWithIndex (fun pIdx _ =>
          { id := if paragraphs.length > 1 then paraId placeholderId pIdx
                  else placeholderId,
            role := "assistant", content := "", timestamp := now,
            attachments := none, source := some "ai" })
          0 paragraphs
      else [m])
    ({ paragraphs := paragraphs, pIdx := 0, chIdx := 0, finished := false },
     { chat := { messages := newMessages, isLoading := false, error := s.chat.error },
       isTyping := true })

/-- One tick of `typeCharWithCallback` (useChat.ts lines 275-309).  `delta`
is the random increment `Math.floor(Math.random()*2)+1 ∈ {1,2}`.  A finished
animation schedules nothing, so further ticks leave everything unchanged;
`finishTyping` clears the `isTypingRef` guard. -/
def typeChar (baseId : String) (delta : Nat) : Anim × Session → Anim × Session
  | (a, s) =>
    if a.finished then (a, s)
    else if a.pIdx ≥ a.paragraphs.length then
      ({ a with finished := true }, { s with isTyping := false })
    else
      let p := (a.paragraphs.getD a.pIdx "")
      let cRaw := a.chIdx + delta
      let c := if cRaw > p.length then p.length else cRaw
      let msgId := if a.paragraphs.length > 1 then paraId baseId a.pIdx else baseId
      let text := jsTake p c
      let s' : Session :=
        { s with chat := { s.chat with messages := s.chat.messages.map (fun m =>
            if m.id = msgId then { m with content := text } else m) } }
      if c < p.length then ({ a with chIdx := c }, s')
      else if a.pIdx < a.paragraphs.length - 1 then
        ({ a with pIdx := a.pIdx + 1, chIdx := 0 }, s')
      else ({ a with chIdx := c, finished := true }, { s' with isTyping := false })

/-- Run the animation over a sequence of random increments. -/
def runTyping (baseId : String) (deltas : List Nat) (as : Anim × Session) :
    Anim × Session :=
  deltas.foldl (fun acc d => typeChar baseId d acc) as

/-- Whether `sendMessage` takes the streaming path: `res.ok && res.body`
(useChat.ts line 207); otherwise it falls back to the synchronous endpoint. -/
def streamPathTaken (resOk hasBody : Bool) : Bool := resOk && hasBody

/-- Ok branch of the non-streaming fallback (useChat.ts lines 332-346):
when `data.response` is truthy, append a message reusing the placeholder id;
otherwise the state is left alone (still loading). -/
def sendFallbackOk (placeholderId : String) (response : Option String) (now : Nat)
    (st : ChatState) : ChatState :=
  match response with
  | some r =>
    if r = "" then st
    else
      { st with
          messages := st.messages ++
            [{ id := placeholderId, role := "assistant", content := r,
               timestamp := now, attachments := none, source := none }]
          isLoading := false }
  | none => st

/-- Error branch of the non-streaming fallback (useChat.ts lines 347-354). -/
def sendFallbackErr (detail : Option String) (st : ChatState) : ChatState :=
  { st with isLoading := false, error := some (jsOr detail "Failed to send message") }

/-- Catch-all of `sendMessage` (useChat.ts lines 356-362). -/
def sendCatch (st : ChatState) : ChatState :=
  { st with isLoading := false, error := some "Connection error" }

/-- Conversion of the conversation row's message array (useChat.ts lines
424-436): `msg.id || crypto.randomUUID()` with role normalization.  The
fresh ids drawn from `crypto.randomUUID()` are supplied positionally. -/
def parseDbMessages : List DbMsg → List String → List Message
  | [], _ => []
  | m :: rest, freshIds =>
    { id := match m.id with
            | some s => if s = "" then freshIds.headD "" else s
            | none => freshIds.headD "",
      role := normalizeRole m.role, content := m.content,
      timestamp := m.timestamp, attachments := none, source := m.source } ::
    parseDbMessages rest freshIds.tail

/-- The `postgres_changes` row-reconciliation handler (useChat.ts lines
411-441): dropped while the typing guard is up or a send is loading;
otherwise the store is replaced wholesale by the parsed row array (a payload
without a proper array is ignored). -/
def onRowUpdate (dbMsgs : Option (List DbMsg)) (freshIds : List String)
    (s : Session) : Session :=
  if s.isTyping then s
  else if s.chat.isLoading then s
  else
    match dbMsgs with
    | some l =>
      { s with chat := { s.chat with messages := parseDbMessages l freshIds } }
    | none => s

/-- The user-side `new_message` broadcast handler (useChat.ts lines 456-478):
append exactly the events whose source is `'admin'` or `'system'`, under a
fresh client id and client timestamp. -/
def userOnNewMessage (ev : BMsg) (freshId : String) (now : Nat) (st : ChatState) :
    ChatState :=
  if ev.source = "admin" || ev.source = "system" then
    { st with messages := st.messages ++
        [{ id := freshId, role := normalizeRole ev.role, content := ev.content,
           timestamp := now, attachments := none, source := some ev.source }] }
  else st

/-- The admin-side `new_message` broadcast handler (Admin.tsx lines 270-298):
own (`'admin'`) messages are ignored; otherwise, if the event matches the
most recent stored message on content and source it is suppressed, else it
is appended. -/
def adminOnNewMessage (channelUserId : String) (ev : BMsg) (now : String)
    (chat : Option AdminChat) : Option AdminChat :=
  if ev.source = "admin" then chat
  else
    match chat with
    | none => none
    | some prev =>
      if prev.userId = channelUserId then
        match prev.messages.getLast? with
        | some lastMsg =>
          if lastMsg.content = ev.content && lastMsg.source = some ev.source then
            some prev
          else
            some { prev with messages := prev.messages ++
              [{ role := ev.role, content := ev.content, source := some ev.source,
                 timestamp := jsOr ev.timestamp now }] }
        | none =>
          some { prev with messages := prev.messages ++
            [{ role := ev.role, content := ev.content, source := some ev.source,
               timestamp := jsOr ev.timestamp now }] }
      else some prev

/-- State of the typing-indicator controller: the visible flag and the
deadline of the currently scheduled 3000ms timeout, if any (useChat.ts
lines 384-385, 443-455; Admin.tsx lines 259-268). -/
structure TypingCtl where
  flag : Bool
  deadline : Option Nat
deriving DecidableEq, Repr

/-- The `typing` broadcast handler: on an event from the counterpart source,
raise the flag, clear the pending timeout and schedule a new one 3000ms out. -/
def typingHandler (counterpart evSource : String) (now : Nat) (c : TypingCtl) :
    TypingCtl :=
  if evSource = counterpart then { flag := true, deadline := some (now + 3000) }
  else c

/-- Firing of the scheduled timeout: at or after the deadline the flag drops. -/
def typingExpire (now : Nat) (c : TypingCtl) : TypingCtl :=
  match c.deadline with
  | some d => if d ≤ now then { flag := false, deadline := none } else c
  | none => c

/-- The flag visible at instant `t` given the timeline of typing broadcasts
(time, source), assumed in chronological order: all events up to `t` are
handled, then the pending timeout fires if its deadline has passed. -/
def typingFlagAt (counterpart : String) (events : List (Nat × String)) (t : Nat) :
    Bool :=
  (typingExpire t
    ((events.filter (fun e => e.1 ≤ t)).foldl
      (fun c e => typingHandler counterpart e.2 e.1 c)
      { flag := false, deadline := none })).flag

/-- The `offset` parameter `loadMoreMessages` sends: the message count read
from state at call time (useChat.ts lines 492-493). -/
def loadMoreRequestOffset (st : ChatState) : Nat := st.messages.length

/-- `loadMoreMessages` (useChat.ts lines 487-523): an empty user id, a failed
or non-ok fetch, a missing array or an empty array all leave the store
unchanged and return `false`; otherwise the fetched messages are prepended
(ids `history-${count+idx}-${Date.now()}`) and the call returns `true`. -/
def loadMoreMessages (userId : String) (res : LoadMoreResult) (now : Nat)
    (st : ChatState) : ChatState × Bool :=
  if userId = "" then (st, false)
  else
    match res with
    | .ok msgs =>
      if msgs.length > 0 then
        let currentCount := loadMoreRequestOffset st
        let oldMessages := mapWithIndex (fun idx m =>
          { id := historyParaId (currentCount + idx) now,
            role := normalizeRole m.role, content := m.content,
            timestamp := now, attachments := none,
            source := m.source : Message }) 0 msgs
        ({ st with messages := oldMessages ++ st.messages }, true)
      else (st, false)
    | _ => (st, false)

/-- The ids currently in the Message Store. -/
def msgIds (st : ChatState) : List String := st.messages.map (fun m => m.id)

/-! ### Decimal representation: the ids `history-...` and `<id>-<n>` are injective -/

/-- Decimal decoding step. -/
def decDigit (a : Nat) (c : Char) : Nat := 10 * a + (c.toNat - 48)

def c5UserStore : ChatState :=
  { messages := [{ id := "m1", role := "assistant", content := "hello",
                   timestamp := 1, attachments := none, source := some "admin" }],
    isLoading := false, error := none }

def c5Event : BMsg :=
  { role := "admin", content := "hello", source := "admin", timestamp := none }

def c3Start : ChatState :=
  (sendMessageStart "u1" "a1" "Hello" [] (.ok (some true)) 3
    { messages := [], isLoading := false, error := none }).1

/-- The optimistic user message of the scenario. -/
def c1User : Message := mkUserMessage "u-1" "Hello" [] 3

/-- The terminal stream content of the scenario. -/
def c1Reply : String := "Hi there!\n\nHow can I help?"

/-- Its paragraph split. -/
def c1P : List String := ["Hi there!", "How can I help?"]

/-- The paragraph sub-message `j` with the given visible content. -/
def c1Msg (j : Nat) (content : String) : Message :=
  { id := paraId "a-1" j, role := "assistant", content := content,
    timestamp := 5, attachments := none, source := some "ai" }

/-- Visible content of sub-message `j` when the animation cursor is at
paragraph `p`, character `c`: full before the cursor's paragraph, a take at
it, empty after it. -/
def c1Content (p c j : Nat) : String :=
  if j < p then c1P.getD j "" else if j = p then jsTake (c1P.getD j "") c else ""

/-- The session during playback with cursor `(p, c)`. -/
def c1State (p c : Nat) : Session :=
  { chat :=
      { messages := [c1User, c1Msg 0 (c1Content p c 0), c1Msg 1 (c1Content p c 1)]
        isLoading := false
        error := none }
    isTyping := true }

/-- The session after playback finished. -/
def c1Full : Session :=
  { chat :=
      { messages := [c1User, c1Msg 0 "Hi there!", c1Msg 1 "How can I help?"]
        isLoading := false
        error := none }
    isTyping := false }

/-- Paragraph length. -/
def c1ParaLen (p : Nat) : Nat := (c1P.getD p "").length

/-- Invariant of the playback loop for the scenario. -/
def c1Inv (as : Anim × Session) : Prop :=
  as.1.paragraphs = c1P ∧
  ((as.1.finished = false ∧ as.1.pIdx < 2 ∧ as.1.chIdx < c1ParaLen as.1.pIdx ∧
      as.2 = c1State as.1.pIdx as.1.chIdx) ∨
   (as.1.finished = true ∧ as.2 = c1Full))

/-- Visible content of sub-message `j`, read off the store by id. -/
def contentAt (s : Session) (j : Nat) : String :=
  ((s.chat.messages.find? (fun m => m.id == paraId "a-1" j)).map Message.content).getD ""

/-- Initial animation closure of the scenario. -/
def c1Anim0 : Anim := { paragraphs := c1P, pIdx := 0, chIdx := 0, finished := false }

/-- Session right after the terminal event replaced the placeholder. -/
def c1Session3 : Session :=
  { chat :=
      { messages := [c1User, c1Msg 0 "", c1Msg 1 ""]
        isLoading := false
        error := none }
    isTyping := true }

/-- The playback state after `i` ticks. -/
def c1Trace (deltas : List Nat) (i : Nat) : Anim × Session :=
  runTyping "a-1" (deltas.take i) (c1Anim0, c1Session3)

/-- The visible content of paragraph sub-message `j` after `i` ticks. -/
def c1ContentAt (deltas : List Nat) (i j : Nat) : String :=
  contentAt (c1Trace deltas i).2 j

/-- Remaining characters to reveal (plus the second paragraph when the cursor
is still on the first). -/
def c1Rem (a : Anim) : Nat := if a.pIdx = 0 then 24 - a.chIdx else 15 - a.chIdx

/-- Session right after `sendMessageStart` in the scenario. -/
def c1SendSession : Session :=
  { chat :=
      { messages := [c1User, mkPlaceholder "a-1" 3]
        isLoading := true
        error := none }
    isTyping := false }

/-- One asynchronous handler invocation on the conversation session, as the
event loop may fire them in any order.  Client-generated ids
(`crypto.randomUUID()` results, paragraph-derived ids, pagination ids built
from `Date.now()`) are assumed fresh for the store, and a reconciliation row
is assumed to carry distinct ids, which is what the backing store guarantees
for a persisted conversation. -/
inductive ChatOp : Session → Session → Prop
  | history (data : List BackendMsg) (now : Nat) (s : Session) :
      ChatOp s { s with chat := { s.chat with messages := loadHistoryMessages data now } }
  | sendStart (uid pid text : String) (atts : List Attachment)
      (settings : SettingsResult) (now : Nat) (s : Session)
      (hu : uid ∉ msgIds s.chat) (hp : pid ∉ msgIds s.chat) (hup : uid ≠ pid) :
      ChatOp s { s with chat := (sendMessageStart uid pid text atts settings now s.chat).1 }
  | done (pid : String) (added : Bool) (content : String) (now : Nat) (s : Session)
      (hfresh : ∀ j : Nat, paraId pid j ∉ msgIds s.chat) :
      ChatOp s (handleDone pid added content now s).2
  | tick (baseId : String) (d : Nat) (a : Anim) (s : Session) :
      ChatOp s (typeChar baseId d (a, s)).2
  | fallbackOk (pid : String) (resp : Option String) (now : Nat) (s : Session)
      (hp : pid ∉ msgIds s.chat) :
      ChatOp s { s with chat := sendFallbackOk pid resp now s.chat }
  | fallbackErr (detail : Option String) (s : Session) :
      ChatOp s { s with chat := sendFallbackErr detail s.chat }
  | connError (s : Session) :
      ChatOp s { s with chat := sendCatch s.chat }
  | rowUpdate (db : Option (List DbMsg)) (fids : List String) (s : Session)
      (hdb : ∀ l, db = some l →
        ((parseDbMessages l fids).map (fun m => m.id)).Nodup) :
      ChatOp s (onRowUpdate db fids s)
  | broadcast (ev : BMsg) (fid : String) (now : Nat) (s : Session)
      (hf : fid ∉ msgIds s.chat) :
      ChatOp s { s with chat := userOnNewMessage ev fid now s.chat }
  | loadMore (uid : String) (res : LoadMoreResult) (now : Nat) (s : Session)
      (hfresh : ∀ i : Nat, historyParaId i now ∉ msgIds s.chat) :
      ChatOp s { s with chat := (loadMoreMessages uid res now s.chat).1 }

/-- Sessions reachable from the initial mount state by handler invocations. -/
inductive ChatReachable : Session → Prop
  | init : ChatReachable initialSession
  | step {s t : Session} : ChatReachable s → ChatOp s t → ChatReachable t

def c2HistoryData : List BackendMsg := [{ role := "human", content := "hi" }]

def c2Mid : Session :=
  { initialSession with chat :=
      { initialSession.chat with messages := loadHistoryMessages c2HistoryData 2 } }

def c2End : Session :=
  { c2Mid with chat := (sendMessageStart "u-3" "a-3" "yo" [] .fetchError 4 c2Mid.chat).1 }

def c2Start : ChatState :=
  (sendMessageStart "u-2" "a-2" "Price?" [] (.ok (some true)) 4
    { messages := [], isLoading := false, error := none }).1

theorem digitChar_decode {m : Nat} (h : m < 10) : (Nat.digitChar m).toNat - 48 = m := by
  interval_cases m <;> decide

theorem digitChar_isDigit {m : Nat} (h : m < 10) : (Nat.digitChar m).isDigit = true := by
  interval_cases m <;> decide

theorem toDigitsCore_foldl (fuel : Nat) :
    ∀ (n : Nat) (ds : List Char), n < 10 ^ fuel →
      (Nat.toDigitsCore 10 fuel n ds).foldl decDigit 0 = ds.foldl decDigit n := by
  induction fuel with
  | zero =>
    intro n ds h
    have hn : n = 0 := by simpa using Nat.lt_one_iff.mp (by simpa using h)
    simp [Nat.toDigitsCore, hn]
  | succ f ih =>
    intro n ds h
    have hmod : n % 10 < 10 := Nat.mod_lt _ (by norm_num)
    by_cases h0 : n / 10 = 0
    · have hn : n < 10 := by omega
      simp only [Nat.toDigitsCore, h0, if_pos rfl, List.foldl]
      rw [show decDigit 0 (Nat.digitChar (n % 10)) = n % 10 by
        simp [decDigit, digitChar_decode hmod]]
      rw [Nat.mod_eq_of_lt hn]
    · simp only [Nat.toDigitsCore, h0, if_false]
      have hlt : n / 10 < 10 ^ f := by
        rw [pow_succ] at h
        exact Nat.div_lt_of_lt_mul (by rwa [Nat.mul_comm] at h)
      rw [ih (n / 10) (Nat.digitChar (n % 10) :: ds) hlt]
      simp only [List.foldl]
      congr 1
      simp [decDigit, digitChar_decode hmod]
      omega

theorem repr_data_decode (n : Nat) : (Nat.repr n).data.foldl decDigit 0 = n := by
  have hpow : n < 10 ^ (n + 1) :=
    lt_of_lt_of_le (Nat.lt_pow_self (by norm_num) n)
      (Nat.pow_le_pow_right (by norm_num) (Nat.le_succ n))
  have : (Nat.repr n).data = Nat.toDigitsCore 10 (n + 1) n [] := rfl
  rw [this, toDigitsCore_foldl (n + 1) n [] hpow]
  rfl

theorem repr_data_inj {m n : Nat} (h : (Nat.repr m).data = (Nat.repr n).data) : m = n := by
  have hm := repr_data_decode m
  rw [h, repr_data_decode n] at hm
  exact hm.symm

theorem toDigitsCore_digits (fuel : Nat) :
    ∀ (n : Nat) (ds : List Char), (∀ c ∈ ds, c.isDigit = true) →
      ∀ c ∈ Nat.toDigitsCore 10 fuel n ds, c.isDigit = true := by
  induction fuel with
  | zero => intro n ds hds; simpa [Nat.toDigitsCore] using hds
  | succ f ih =>
    intro n ds hds c hc
    have hmod : n % 10 < 10 := Nat.mod_lt _ (by norm_num)
    by_cases h0 : n / 10 = 0
    · simp only [Nat.toDigitsCore, h0, if_pos rfl] at hc
      rcases List.mem_cons.mp hc with h | h
      · subst h; exact digitChar_isDigit hmod
      · exact hds c h
    · simp only [Nat.toDigitsCore, h0, if_false] at hc
      refine ih (n / 10) _ ?_ c hc
      intro c' hc'
      rcases List.mem_cons.mp hc' with h | h
      · subst h; exact digitChar_isDigit hmod
      · exact hds c' h

theorem repr_digits (n : Nat) : ∀ c ∈ (Nat.repr n).data, c.isDigit = true := by
  have : (Nat.repr n).data = Nat.toDigitsCore 10 (n + 1) n [] := rfl
  rw [this]
  exact toDigitsCore_digits (n + 1) n [] (by intro c h; cases h)

theorem dash_not_mem_repr (n : Nat) : '-' ∉ (Nat.repr n).data := by
  intro h
  have := repr_digits n '-' h
  simp [Char.isDigit] at this

theorem splitAtDash :
    ∀ (a₁ a₂ b₁ b₂ : List Char), '-' ∉ a₁ → '-' ∉ a₂ →
      a₁ ++ '-' :: b₁ = a₂ ++ '-' :: b₂ → a₁ = a₂ ∧ b₁ = b₂ := by
  intro a₁
  induction a₁ with
  | nil =>
    intro a₂ b₁ b₂ _ h₂ h
    cases a₂ with
    | nil => simpa using h
    | cons c rest =>
      simp only [List.nil_append, List.cons_append, List.cons.injEq] at h
      apply absurd _ h₂
      rw [h.1]
      exact List.mem_cons_self c rest
  | cons c rest ih =>
    intro a₂ b₁ b₂ h₁ h₂ h
    cases a₂ with
    | nil =>
      simp only [List.cons_append, List.nil_append, List.cons.injEq] at h
      apply absurd _ h₁
      rw [← h.1]
      exact List.mem_cons_self c rest
    | cons c' rest' =>
      simp only [List.cons_append, List.cons.injEq] at h
      obtain ⟨hc, hrest⟩ := h
      have := ih rest' b₁ b₂ (fun hm => h₁ (List.mem_cons_of_mem c hm))
        (fun hm => h₂ (List.mem_cons_of_mem c' hm)) hrest
      exact ⟨by rw [hc, this.1], this.2⟩

theorem string_data_inj {s t : String} (h : s.data = t.data) : s = t := by
  cases s; cases t; exact congrArg String.mk h

theorem historyId_inj {i j : Nat} (h : historyId i = historyId j) : i = j := by
  have hd := congrArg String.data h
  simp only [historyId, String.data_append] at hd
  exact repr_data_inj (List.append_cancel_left hd)

theorem historyParaId_inj {i p j q : Nat}
    (h : historyParaId i p = historyParaId j q) : i = j ∧ p = q := by
  have hd := congrArg String.data h
  simp only [historyParaId, String.data_append] at hd
  have hd2 : (Nat.repr i).data ++ '-' :: (Nat.repr p).data =
      (Nat.repr j).data ++ '-' :: (Nat.repr q).data := by
    simpa [List.append_assoc] using hd
  have := splitAtDash _ _ _ _ (dash_not_mem_repr i) (dash_not_mem_repr j) hd2
  exact ⟨repr_data_inj this.1, repr_data_inj this.2⟩

theorem historyId_ne_historyParaId (i j q : Nat) : historyId i ≠ historyParaId j q := by
  intro h
  have hd := congrArg String.data h
  simp only [historyId, historyParaId, String.data_append] at hd
  have hd2 : (Nat.repr i).data = (Nat.repr j).data ++ '-' :: (Nat.repr q).data := by
    refine @List.append_cancel_left _ "history-".data _ _ ?_
    simpa [List.append_assoc] using hd
  apply dash_not_mem_repr i
  rw [hd2]
  exact List.mem_append_right _ (List.mem_cons_self _ _)

theorem paraId_inj {base : String} {i j : Nat} (h : paraId base i = paraId base j) :
    i = j := by
  have hd := congrArg String.data h
  simp only [paraId, String.data_append] at hd
  have := @List.append_cancel_left _ (base.data ++ "-".data) _ _
    (by simpa [List.append_assoc] using hd)
  exact repr_data_inj this

theorem mapWithIndex_length (f : Nat → α → β) :
    ∀ (i : Nat) (l : List α), (mapWithIndex f i l).length = l.length := by
  intro i l
  induction l generalizing i with
  | nil => rfl
  | cons a rest ih => simp [mapWithIndex, ih]

/-- C4: if the automated-response settings fetch rejects or returns a non-ok
response (or omits the flag), `sendMessage` behaves as if the setting were
enabled: the user message, the empty assistant placeholder and the loading
state are all produced; only an explicit `ai_enabled = false` from a
successful response suppresses the placeholder and the loading state. -/
theorem c4_settings_fail_open (userMsgId placeholderId text : String)
    (atts : List Attachment) (now : Nat) (st : ChatState) :
    (∀ res : SettingsResult, (res = .fetchError ∨ res = .notOk ∨ res = .ok none) →
      sendMessageStart userMsgId placeholderId text atts res now st =
        ({ st with
            messages := st.messages ++
              [mkUserMessage userMsgId text atts now, mkPlaceholder placeholderId now]
            isLoading := true
            error := none }, true)) ∧
    (∀ res : SettingsResult,
      (sendMessageStart userMsgId placeholderId text atts res now st).2 = false ↔
        res = .ok (some false)) ∧
    (sendMessageStart userMsgId placeholderId text atts (.ok (some false)) now st =
      ({ st with
          messages := st.messages ++ [mkUserMessage userMsgId text atts now]
          isLoading := false
          error := none }, false)) := by
  refine ⟨?_, ?_, ?_⟩
  · rintro res (rfl | rfl | rfl) <;> rfl
  · intro res
    cases res with
    | fetchError => simp [sendMessageStart, resolveAiEnabled]
    | notOk => simp [sendMessageStart, resolveAiEnabled]
    | ok b =>
      cases b with
      | none => simp [sendMessageStart, resolveAiEnabled]
      | some v => cases v <;> simp [sendMessageStart, resolveAiEnabled]
  · rfl

theorem c4_witness :
    sendMessageStart "u1" "a1" "Hello" [] .fetchError 3
      { messages := [], isLoading := false, error := none } =
      ({ messages := [mkUserMessage "u1" "Hello" [] 3, mkPlaceholder "a1" 3],
         isLoading := true, error := none }, true) := by
  have h := (c4_settings_fail_open "u1" "a1" "Hello" [] 3
    { messages := [], isLoading := false, error := none }).1 .fetchError (Or.inl rfl)
  simpa using h

/-- C9: when the backend returns zero additional messages, `loadMoreMessages`
leaves the Message Store unchanged and returns `false`; the store being
unchanged, a second call issues the same offset and behaves identically; when
one or more messages are returned they are prepended, not appended, and the
call returns `true`. -/
theorem c9_load_more (uid : String) (now now2 : Nat) (st : ChatState)
    (msgs : List BackendMsg) :
    (uid ≠ "" → loadMoreMessages uid (.ok []) now st = (st, false)) ∧
    (uid ≠ "" →
      loadMoreRequestOffset (loadMoreMessages uid (.ok []) now st).1 =
        loadMoreRequestOffset st ∧
      loadMoreMessages uid (.ok []) now2 (loadMoreMessages uid (.ok []) now st).1 =
        ((loadMoreMessages uid (.ok []) now st).1, false)) ∧
    (uid ≠ "" → msgs ≠ [] →
      (loadMoreMessages uid (.ok msgs) now st).2 = true ∧
      ∃ newMsgs : List Message, newMsgs.length = msgs.length ∧
        (loadMoreMessages uid (.ok msgs) now st).1.messages =
          newMsgs ++ st.messages) := by
  refine ⟨?_, ?_, ?_⟩
  · intro h
    simp [loadMoreMessages, h]
  · intro h
    constructor
    · simp [loadMoreMessages, h]
    · simp [loadMoreMessages, h]
  · intro h hne
    have hlen : msgs.length > 0 := List.length_pos.mpr hne
    refine ⟨?_, ?_⟩
    · simp [loadMoreMessages, h, hlen]
    · refine ⟨mapWithIndex (fun idx m =>
        { id := historyParaId (loadMoreRequestOffset st + idx) now
          role := normalizeRole m.role
          content := m.content
          timestamp := now
          attachments := none
          source := m.source : Message }) 0 msgs, ?_, ?_⟩
      · exact mapWithIndex_length _ _ _
      · simp [loadMoreMessages, h, hlen]

theorem c9_witness :
    loadMoreMessages "u7" (.ok []) 11
      { messages := [], isLoading := false, error := none } =
      ({ messages := [], isLoading := false, error := none }, false) :=
  (c9_load_more "u7" 11 11 { messages := [], isLoading := false, error := none } []).1
    (by decide)

/-- C10 (implicit): on the user side, a broadcast `new_message` event is
appended to the store if and only if its source is `'admin'` or `'system'`;
broadcasts with source `'ai'` or `'human'` are always dropped, so AI content
can only enter the user store through the send pipeline or row
reconciliation. -/
theorem c10_user_broadcast_filter (ev : BMsg) (freshId : String) (now : Nat)
    (st : ChatState) :
    ((userOnNewMessage ev freshId now st).messages.length = st.messages.length + 1 ↔
      (ev.source = "admin" ∨ ev.source = "system")) ∧
    ((ev.source = "ai" ∨ ev.source = "human") →
      userOnNewMessage ev freshId now st = st) := by
  constructor
  · by_cases ha : ev.source = "admin"
    · simp [userOnNewMessage, ha]
    · by_cases hs : ev.source = "system"
      · simp [userOnNewMessage, ha, hs]
      · simp [userOnNewMessage, ha, hs]
  · rintro (h | h) <;> simp [userOnNewMessage, h]

theorem c10_witness :
    ((userOnNewMessage { role := "ai", content := "x", source := "ai" } "f" 1
        { messages := [], isLoading := false, error := none }).messages.length =
      0 + 1 ↔
      (("ai" : String) = "admin" ∨ ("ai" : String) = "system")) :=
  by simpa using (c10_user_broadcast_filter
    { role := "ai", content := "x", source := "ai" } "f" 1
    { messages := [], isLoading := false, error := none }).1

/-- C6: a broadcast `new_message` event whose source equals the local actor's
own source (`'admin'` on the admin side, `'human'` on the user side) never
appends a message to the local store. -/
theorem c6_own_source_never_appended :
    (∀ (channelUserId : String) (ev : BMsg) (now : String) (chat : Option AdminChat),
      ev.source = "admin" → adminOnNewMessage channelUserId ev now chat = chat) ∧
    (∀ (ev : BMsg) (freshId : String) (now : Nat) (st : ChatState),
      ev.source = "human" → userOnNewMessage ev freshId now st = st) := by
  constructor
  · intro ch ev now chat h
    simp [adminOnNewMessage, h]
  · intro ev freshId now st h
    simp [userOnNewMessage, h]

theorem c6_witness :
    adminOnNewMessage "u9" { role := "admin", content := "hey", source := "admin" }
        "t0" (some { userId := "u9", messages := [] }) =
      some { userId := "u9", messages := [] } ∧
    userOnNewMessage { role := "human", content := "hey", source := "human" } "f" 2
        { messages := [], isLoading := false, error := none } =
      { messages := [], isLoading := false, error := none } :=
  ⟨c6_own_source_never_appended.1 "u9" _ "t0" _ rfl,
   c6_own_source_never_appended.2 _ "f" 2 _ rfl⟩

/-- C5 (amended): on the admin side, a broadcast `new_message` event whose
source equals the most recent stored message's source with identical content
leaves the store unchanged, and a non-matching tail means the event is
appended even if an earlier (non-adjacent) message matches; the user-side
handler performs no duplicate suppression and appends every admin/system
broadcast. -/
theorem c5_adjacent_echo_suppression :
    (∀ (ch : String) (ev : BMsg) (now : String) (c : AdminChat) (last : AdminMsg),
      c.userId = ch → c.messages.getLast? = some last →
      last.content = ev.content → last.source = some ev.source →
      adminOnNewMessage ch ev now (some c) = some c) ∧
    (∀ (ch : String) (ev : BMsg) (now : String) (c : AdminChat) (last : AdminMsg),
      c.userId = ch → c.messages.getLast? = some last → ev.source ≠ "admin" →
      ¬(last.content = ev.content ∧ last.source = some ev.source) →
      adminOnNewMessage ch ev now (some c) =
        some { c with messages := c.messages ++
          [{ role := ev.role, content := ev.content, source := some ev.source,
             timestamp := jsOr ev.timestamp now }] }) ∧
    (∀ (ev : BMsg) (freshId : String) (now : Nat) (st : ChatState),
      (ev.source = "admin" ∨ ev.source = "system") →
      (userOnNewMessage ev freshId now st).messages.length =
        st.messages.length + 1) := by
  refine ⟨?_, ?_, ?_⟩
  · intro ch ev now c last huid hlast hc hs
    by_cases ha : ev.source = "admin"
    · simp [adminOnNewMessage, ha]
    · simp [adminOnNewMessage, ha, huid, hlast, hc, hs]
  · intro ch ev now c last huid hlast ha hmatch
    rw [not_and_or] at hmatch
    rcases hmatch with hm | hm <;>
      simp [adminOnNewMessage, ha, huid, hlast, hm]
  · rintro ev freshId now st (h | h) <;> simp [userOnNewMessage, h]

/-- C5 counterexample: on the user side the claim fails — an admin broadcast
whose content and source equal those of the most recent stored message is
still appended. -/
theorem c5_counterexample :
    userOnNewMessage c5Event "m2" 2 c5UserStore ≠ c5UserStore ∧
    (userOnNewMessage c5Event "m2" 2 c5UserStore).messages.length = 2 := by
  constructor
  · decide
  · decide

theorem c5_witness :
    adminOnNewMessage "u9"
        { role := "human", content := "hello", source := "human", timestamp := none }
        "t0"
        (some { userId := "u9", messages :=
          [{ role := "human", content := "hello", source := some "human",
             timestamp := "t" }] }) =
      some { userId := "u9", messages :=
        [{ role := "human", content := "hello", source := some "human",
           timestamp := "t" }] } :=
  c5_adjacent_echo_suppression.1 "u9" _ "t0" _
    { role := "human", content := "hello", source := some "human", timestamp := "t" }
    rfl rfl rfl rfl

/-- C3 (amended): the send pipeline takes the fallback exactly when the
streaming response is non-ok or lacks a body; on fallback success a new
assistant message carrying the placeholder's id and the full response text is
appended at the tail (the empty placeholder is left in place); on fallback
failure an error string is surfaced and the store, placeholder included, is
left unchanged. -/
theorem c3_fallback_behavior :
    (∀ resOk hasBody : Bool, streamPathTaken resOk hasBody = false ↔
      (resOk = false ∨ hasBody = false)) ∧
    (∀ (pid r : String) (now : Nat) (st : ChatState), r ≠ "" →
      sendFallbackOk pid (some r) now st =
        { st with
            messages := st.messages ++
              [{ id := pid, role := "assistant", content := r, timestamp := now,
                 attachments := none, source := none }]
            isLoading := false }) ∧
    (∀ (detail : Option String) (st : ChatState),
      (sendFallbackErr detail st).messages = st.messages ∧
      (sendFallbackErr detail st).isLoading = false ∧
      (sendFallbackErr detail st).error =
        some (jsOr detail "Failed to send message")) := by
  refine ⟨?_, ?_, ?_⟩
  · intro a b
    cases a <;> cases b <;> simp [streamPathTaken]
  · intro pid r now st h
    simp [sendFallbackOk, h]
  · intro detail st
    exact ⟨rfl, rfl, rfl⟩

/-- C3 counterexample: after a fallback success the store holds three entries
(the empty placeholder was not populated in place; a new entry with the same
id was appended), and after a fallback failure the empty placeholder is still
present rather than removed. -/
theorem c3_counterexample :
    (sendFallbackOk "a1" (some "Hi!") 7 c3Start).messages =
      [mkUserMessage "u1" "Hello" [] 3, mkPlaceholder "a1" 3,
       { id := "a1", role := "assistant", content := "Hi!", timestamp := 7,
         attachments := none, source := none }] ∧
    mkPlaceholder "a1" 3 ∈ (sendFallbackErr (some "boom") c3Start).messages := by
  constructor
  · decide
  · decide

theorem c3_witness :
    sendFallbackOk "a9" (some "Sure.") 7
        { messages := [], isLoading := true, error := none } =
      { messages := [{ id := "a9", role := "assistant", content := "Sure.",
                       timestamp := 7, attachments := none, source := none }],
        isLoading := false, error := none } := by
  have h := c3_fallback_behavior.2.1 "a9" "Sure." 7
    { messages := [], isLoading := true, error := none } (by decide)
  simpa using h

/-- C8: the counterpart-typing flag rises on a typing broadcast from the
counterpart source, and with broadcasts at t=0 and t=1000 and no further
events the flag is exactly the predicate t < 4000: the 3000ms expiry timer is
reset by each event. -/
theorem c8_typing_debounce :
    (∀ (cp : String) (now : Nat) (c : TypingCtl),
      (typingHandler cp cp now c).flag = true) ∧
    (∀ t : Nat, typingFlagAt "admin" [(0, "admin"), (1000, "admin")] t =
      decide (t < 4000)) := by
  constructor
  · intro cp now c
    simp [typingHandler]
  · intro t
    by_cases h1 : 1000 ≤ t
    · by_cases h4 : 4000 ≤ t
      · simp [typingFlagAt, typingHandler, typingExpire, List.filter, h1, h4]
      · simp [typingFlagAt, typingHandler, typingExpire, List.filter, h1, h4]
        omega
    · have h3 : ¬ 3000 ≤ t := by omega
      simp [typingFlagAt, typingHandler, typingExpire, List.filter, h1, h3]
      omega

/-! ### C1 machinery -/

theorem string_mk_append (a b : List Char) :
    (⟨a⟩ : String) ++ (⟨b⟩ : String) = ⟨a ++ b⟩ := rfl

theorem prefixOfStr_refl (s : String) : PrefixOfStr s s :=
  ⟨"", by cases s; exact congrArg String.mk (List.append_nil _)⟩

theorem prefixOfStr_empty (s : String) : PrefixOfStr "" s :=
  ⟨s, by cases s; rfl⟩

theorem jsTake_mono (s : String) {m n : Nat} (h : m ≤ n) :
    PrefixOfStr (jsTake s m) (jsTake s n) := by
  refine ⟨⟨(s.data.drop m).take (n - m)⟩, ?_⟩
  rw [jsTake, jsTake, string_mk_append]
  apply congrArg String.mk
  rw [← List.take_add]
  congr 1
  omega

theorem jsTake_prefixOfStr_self (s : String) (n : Nat) : PrefixOfStr (jsTake s n) s := by
  refine ⟨⟨s.data.drop n⟩, ?_⟩
  rw [jsTake, string_mk_append]
  cases s
  exact congrArg String.mk (List.take_append_drop _ _)

theorem jsTake_full (s : String) {n : Nat} (h : s.length ≤ n) : jsTake s n = s := by
  rw [jsTake]
  cases s with
  | mk data =>
    apply congrArg String.mk
    exact List.take_of_length_le h

theorem jsTake_zero (s : String) : jsTake s 0 = "" := by
  rw [jsTake]
  rfl

theorem contentAt_c1State_0 (p c : Nat) : contentAt (c1State p c) 0 = c1Content p c 0 := by
  have h1 : (c1User.id == paraId "a-1" 0) = false := by decide
  simp [contentAt, c1State, c1Msg, h1]

theorem contentAt_c1State_1 (p c : Nat) : contentAt (c1State p c) 1 = c1Content p c 1 := by
  have h1 : (c1User.id == paraId "a-1" 1) = false := by decide
  have h2 : (paraId "a-1" 0 == paraId "a-1" 1) = false := by decide
  simp [contentAt, c1State, c1Msg, h1, h2]

theorem contentAt_c1Full_0 : contentAt c1Full 0 = "Hi there!" := by decide

theorem contentAt_c1Full_1 : contentAt c1Full 1 = "How can I help?" := by decide

theorem typeChar_c1_p0 (ci d : Nat) :
    typeChar "a-1" d (⟨c1P, 0, ci, false⟩, c1State 0 ci) =
      if ci + d < 9 then (⟨c1P, 0, ci + d, false⟩, c1State 0 (ci + d))
      else (⟨c1P, 1, 0, false⟩, c1State 1 0) := by
  have hu : ("u-1" : String) ≠ paraId "a-1" 0 := by decide
  have hm1 : paraId "a-1" 1 ≠ paraId "a-1" 0 := by decide
  have h9 : jsTake "Hi there!" 9 = "Hi there!" := by decide
  have hgd : c1P.getD 0 "" = "Hi there!" := rfl
  have hgl : ("Hi there!" : String).length = 9 := by decide
  have hPl : c1P.length = 2 := rfl
  have hg0 : c1P[0]?.getD "" = "Hi there!" := rfl
  have hg1 : c1P[1]?.getD "" = "How can I help?" := rfl
  have hz : jsTake "How can I help?" 0 = "" := by decide
  by_cases hbig : ci + d > 9
  · have hnot : ¬ (ci + d < 9) := by omega
    simp only [typeChar, hgd, hPl, hgl]
    rw [if_neg (by omega : ¬ (0 ≥ 2))]
    rw [if_pos hbig]
    rw [if_neg (by omega : ¬ ((9 : Nat) < 9))]
    rw [if_pos (by omega : (0 : Nat) < 2 - 1)]
    rw [if_neg hnot]
    rw [if_pos (by omega : (2 : Nat) > 1)]
    simp only [c1State, c1Msg, c1User, mkUserMessage, List.map]
    simp [hu, hm1, c1Content, h9, hg0, hg1, hz]
  · have hle : ci + d ≤ 9 := by omega
    have hlt : ci + d < 9 ∨ ci + d = 9 := by omega
    rcases hlt with hlt | heq
    · simp only [typeChar, hgd, hPl, hgl]
      rw [if_neg (by omega : ¬ (0 ≥ 2))]
      rw [if_neg (by omega : ¬ (ci + d > 9))]
      rw [if_pos hlt]
      rw [if_pos hlt]
      rw [if_pos (by omega : (2 : Nat) > 1)]
      simp only [c1State, c1Msg, c1User, mkUserMessage, List.map]
      simp [hu, hm1, c1Content, hg0, hg1]
    · simp only [typeChar, hgd, hPl, hgl]
      rw [if_neg (by omega : ¬ (0 ≥ 2))]
      rw [if_neg (by omega : ¬ (ci + d > 9))]
      rw [heq]
      rw [if_neg (by omega : ¬ ((9 : Nat) < 9))]
      rw [if_pos (by omega : (0 : Nat) < 2 - 1)]
      rw [if_pos (by omega : (2 : Nat) > 1)]
      simp only [c1State, c1Msg, c1User, mkUserMessage, List.map]
      simp [hu, hm1, c1Content, h9, hg0, hg1, hz]

theorem typeChar_c1_p1 (ci d : Nat) :
    typeChar "a-1" d (⟨c1P, 1, ci, false⟩, c1State 1 ci) =
      if ci + d < 15 then (⟨c1P, 1, ci + d, false⟩, c1State 1 (ci + d))
      else (⟨c1P, 1, 15, true⟩, c1Full) := by
  have hu : ("u-1" : String) ≠ paraId "a-1" 1 := by decide
  have hm0 : paraId "a-1" 0 ≠ paraId "a-1" 1 := by decide
  have h15 : jsTake "How can I help?" 15 = "How can I help?" := by decide
  have hgd : c1P.getD 1 "" = "How can I help?" := rfl
  have hgl : ("How can I help?" : String).length = 15 := by decide
  have hPl : c1P.length = 2 := rfl
  have hg0 : c1P[0]?.getD "" = "Hi there!" := rfl
  have hg1 : c1P[1]?.getD "" = "How can I help?" := rfl
  by_cases hbig : ci + d > 15
  · have hnot : ¬ (ci + d < 15) := by omega
    simp only [typeChar, hgd, hPl, hgl]
    rw [if_neg (by omega : ¬ (1 ≥ 2))]
    rw [if_pos hbig]
    rw [if_neg (by omega : ¬ ((15 : Nat) < 15))]
    rw [if_neg (by omega : ¬ ((1 : Nat) < 2 - 1))]
    rw [if_neg hnot]
    rw [if_pos (by omega : (2 : Nat) > 1)]
    simp only [c1State, c1Full, c1Msg, c1User, mkUserMessage, List.map]
    simp [hu, hm0, c1Content, h15, hg0, hg1]
  · have hlt : ci + d < 15 ∨ ci + d = 15 := by omega
    rcases hlt with hlt | heq
    · simp only [typeChar, hgd, hPl, hgl]
      rw [if_neg (by omega : ¬ (1 ≥ 2))]
      rw [if_neg (by omega : ¬ (ci + d > 15))]
      rw [if_pos hlt]
      rw [if_pos hlt]
      rw [if_pos (by omega : (2 : Nat) > 1)]
      simp only [c1State, c1Msg, c1User, mkUserMessage, List.map]
      simp [hu, hm0, c1Content, hg0, hg1]
    · simp only [typeChar, hgd, hPl, hgl]
      rw [if_neg (by omega : ¬ (1 ≥ 2))]
      rw [if_neg (by omega : ¬ (ci + d > 15))]
      rw [heq]
      rw [if_neg (by omega : ¬ ((15 : Nat) < 15))]
      rw [if_neg (by omega : ¬ ((1 : Nat) < 2 - 1))]
      rw [if_pos (by omega : (2 : Nat) > 1)]
      simp only [c1State, c1Full, c1Msg, c1User, mkUserMessage, List.map]
      simp [hu, hm0, c1Content, h15, hg0, hg1]

theorem typeChar_of_finished (b : String) (d : Nat) (a : Anim) (s : Session)
    (h : a.finished = true) : typeChar b d (a, s) = (a, s) := by
  simp [typeChar, h]

theorem c1Content_0_0 (c : Nat) : c1Content 0 c 0 = jsTake "Hi there!" c := rfl

theorem c1Content_0_1 (c : Nat) : c1Content 0 c 1 = "" := rfl

theorem c1Content_1_0 (c : Nat) : c1Content 1 c 0 = "Hi there!" := rfl

theorem c1Content_1_1 (c : Nat) : c1Content 1 c 1 = jsTake "How can I help?" c := rfl

theorem c1ParaLen_0 : c1ParaLen 0 = 9 := by decide

theorem c1ParaLen_1 : c1ParaLen 1 = 15 := by decide

theorem c1Inv_step (a : Anim) (s : Session) (d : Nat) (hd : 1 ≤ d) (h : c1Inv (a, s)) :
    c1Inv (typeChar "a-1" d (a, s)) ∧
    PrefixOfStr (contentAt s 0) (contentAt (typeChar "a-1" d (a, s)).2 0) ∧
    PrefixOfStr (contentAt s 1) (contentAt (typeChar "a-1" d (a, s)).2 1) := by
  obtain ⟨P, pi, ci, fin⟩ := a
  obtain ⟨hP, hcase⟩ := h
  simp only at hP
  subst hP
  rcases hcase with ⟨hf, hp, hc, hs⟩ | ⟨hf, hs⟩
  · simp only at hf hp hc hs
    subst hf
    subst hs
    interval_cases pi
    · have hc9 : ci < 9 := by simpa [c1ParaLen_0] using hc
      rw [typeChar_c1_p0 ci d]
      by_cases hlt : ci + d < 9
      · rw [if_pos hlt]
        refine ⟨⟨rfl, Or.inl ⟨rfl, by show (0:Nat) < 2; omega,
          by show ci + d < c1ParaLen 0; rw [c1ParaLen_0]; omega, rfl⟩⟩, ?_, ?_⟩
        · rw [contentAt_c1State_0, contentAt_c1State_0, c1Content_0_0, c1Content_0_0]
          exact jsTake_mono _ (by omega)
        · rw [contentAt_c1State_1, contentAt_c1State_1, c1Content_0_1, c1Content_0_1]
          exact prefixOfStr_refl _
      · rw [if_neg hlt]
        refine ⟨⟨rfl, Or.inl ⟨rfl, by show (1:Nat) < 2; omega,
          by show (0:Nat) < c1ParaLen 1; rw [c1ParaLen_1]; omega, rfl⟩⟩, ?_, ?_⟩
        · rw [contentAt_c1State_0, contentAt_c1State_0, c1Content_0_0, c1Content_1_0]
          exact jsTake_prefixOfStr_self _ _
        · rw [contentAt_c1State_1, contentAt_c1State_1, c1Content_0_1, c1Content_1_1]
          rw [jsTake_zero]
          exact prefixOfStr_refl _
    · have hc15 : ci < 15 := by simpa [c1ParaLen_1] using hc
      rw [typeChar_c1_p1 ci d]
      by_cases hlt : ci + d < 15
      · rw [if_pos hlt]
        refine ⟨⟨rfl, Or.inl ⟨rfl, by show (1:Nat) < 2; omega,
          by show ci + d < c1ParaLen 1; rw [c1ParaLen_1]; omega, rfl⟩⟩, ?_, ?_⟩
        · rw [contentAt_c1State_0, contentAt_c1State_0, c1Content_1_0, c1Content_1_0]
          exact prefixOfStr_refl _
        · rw [contentAt_c1State_1, contentAt_c1State_1, c1Content_1_1, c1Content_1_1]
          exact jsTake_mono _ (by omega)
      · rw [if_neg hlt]
        refine ⟨⟨rfl, Or.inr ⟨rfl, rfl⟩⟩, ?_, ?_⟩
        · rw [contentAt_c1State_0, contentAt_c1Full_0, c1Content_1_0]
          exact prefixOfStr_refl _
        · rw [contentAt_c1State_1, contentAt_c1Full_1, c1Content_1_1]
          exact jsTake_prefixOfStr_self _ _
  · simp only at hf
    subst hf
    rw [typeChar_of_finished _ _ _ _ rfl]
    exact ⟨⟨rfl, Or.inr ⟨rfl, hs⟩⟩, prefixOfStr_refl _, prefixOfStr_refl _⟩

theorem c1Inv_init : c1Inv (c1Anim0, c1Session3) :=
  ⟨rfl, Or.inl ⟨rfl, by decide, by decide, by decide⟩⟩

theorem runTyping_nil (b : String) (as : Anim × Session) : runTyping b [] as = as := rfl

theorem runTyping_cons (b : String) (d : Nat) (ds : List Nat) (as : Anim × Session) :
    runTyping b (d :: ds) as = runTyping b ds (typeChar b d as) := rfl

theorem runTyping_append (b : String) (l1 l2 : List Nat) (as : Anim × Session) :
    runTyping b (l1 ++ l2) as = runTyping b l2 (runTyping b l1 as) := by
  simp [runTyping, List.foldl_append]

theorem c1Inv_runTyping (ds : List Nat) (hds : ∀ d ∈ ds, 1 ≤ d)
    (as : Anim × Session) (h : c1Inv as) : c1Inv (runTyping "a-1" ds as) := by
  induction ds generalizing as with
  | nil => exact h
  | cons d rest ih =>
    rw [runTyping_cons]
    exact ih (fun x hx => hds x (List.mem_cons_of_mem _ hx)) _
      (c1Inv_step as.1 as.2 d (hds d (List.mem_cons_self _ _)) h).1

theorem c1Trace_inv (deltas : List Nat) (hds : ∀ d ∈ deltas, 1 ≤ d) (i : Nat) :
    c1Inv (c1Trace deltas i) :=
  c1Inv_runTyping _ (fun d hd => hds d (List.take_subset _ _ hd)) _ c1Inv_init

theorem c1_trace_mono (deltas : List Nat) (hds : ∀ d ∈ deltas, 1 ≤ d) (i : Nat) :
    PrefixOfStr (c1ContentAt deltas i 0) (c1ContentAt deltas (i + 1) 0) ∧
    PrefixOfStr (c1ContentAt deltas i 1) (c1ContentAt deltas (i + 1) 1) := by
  by_cases hi : i < deltas.length
  · have htake : deltas.take (i + 1) = deltas.take i ++ [deltas[i]] := by
      rw [List.take_succ]
      simp [List.getElem?_eq_getElem hi]
    have hinv := c1Trace_inv deltas hds i
    have hstep := c1Inv_step (c1Trace deltas i).1 (c1Trace deltas i).2
      deltas[i] (hds _ (List.getElem_mem hi)) hinv
    unfold c1ContentAt
    have htr : c1Trace deltas (i + 1) =
        typeChar "a-1" deltas[i] (c1Trace deltas i) := by
      unfold c1Trace
      rw [htake, runTyping_append]
      rfl
    rw [htr]
    exact ⟨hstep.2.1, hstep.2.2⟩
  · have htake : deltas.take (i + 1) = deltas.take i := by
      rw [List.take_of_length_le (by omega), List.take_of_length_le (by omega)]
    unfold c1ContentAt c1Trace
    rw [htake]
    exact ⟨prefixOfStr_refl _, prefixOfStr_refl _⟩

theorem c1Content_prefix_para (p c j : Nat) :
    PrefixOfStr (c1Content p c j) (c1P.getD j "") := by
  unfold c1Content
  split_ifs
  exacts [prefixOfStr_refl _, jsTake_prefixOfStr_self _ _, prefixOfStr_empty _]

theorem c1_trace_para (deltas : List Nat) (hds : ∀ d ∈ deltas, 1 ≤ d) (i : Nat) :
    PrefixOfStr (c1ContentAt deltas i 0) "Hi there!" ∧
    PrefixOfStr (c1ContentAt deltas i 1) "How can I help?" := by
  have hinv := c1Trace_inv deltas hds i
  rcases hinv.2 with ⟨_, _, _, hs⟩ | ⟨_, hs⟩
  · unfold c1ContentAt
    rw [hs, contentAt_c1State_0, contentAt_c1State_1]
    exact ⟨c1Content_prefix_para _ _ 0, c1Content_prefix_para _ _ 1⟩
  · unfold c1ContentAt
    rw [hs, contentAt_c1Full_0, contentAt_c1Full_1]
    exact ⟨prefixOfStr_refl _, prefixOfStr_refl _⟩

theorem c1_trace_order (deltas : List Nat) (hds : ∀ d ∈ deltas, 1 ≤ d) (i : Nat)
    (hne : c1ContentAt deltas i 1 ≠ "") : c1ContentAt deltas i 0 = "Hi there!" := by
  have hinv := c1Trace_inv deltas hds i
  rcases hinv.2 with ⟨_, hp, _, hs⟩ | ⟨_, hs⟩
  · unfold c1ContentAt at hne ⊢
    rw [hs, contentAt_c1State_0]
    rw [hs, contentAt_c1State_1] at hne
    have hp2 : (c1Trace deltas i).1.pIdx = 0 ∨ (c1Trace deltas i).1.pIdx = 1 := by omega
    rcases hp2 with h0 | h1
    · exfalso
      apply hne
      rw [h0]
      exact c1Content_0_1 _
    · rw [h1]
      exact c1Content_1_0 _
  · unfold c1ContentAt
    rw [hs, contentAt_c1Full_0]

theorem c1_step_progress (a : Anim) (s : Session) (d : Nat) (hd : 1 ≤ d)
    (h : c1Inv (a, s)) (hf : a.finished = false) :
    (typeChar "a-1" d (a, s)).1.finished = true ∨
    c1Rem (typeChar "a-1" d (a, s)).1 < c1Rem a := by
  obtain ⟨P, pi, ci, fin⟩ := a
  obtain ⟨hP, hcase⟩ := h
  simp only at hP hf
  subst hP
  subst hf
  rcases hcase with ⟨_, hp, hc, hs⟩ | ⟨hfin, _⟩
  · simp only at hp hc hs
    subst hs
    interval_cases pi
    · have hc9 : ci < 9 := by simpa [c1ParaLen_0] using hc
      rw [typeChar_c1_p0 ci d]
      by_cases hlt : ci + d < 9
      · rw [if_pos hlt]
        right
        simp only [c1Rem]
        norm_num
        omega
      · rw [if_neg hlt]
        right
        simp only [c1Rem]
        norm_num
        omega
    · have hc15 : ci < 15 := by simpa [c1ParaLen_1] using hc
      rw [typeChar_c1_p1 ci d]
      by_cases hlt : ci + d < 15
      · rw [if_pos hlt]
        right
        simp only [c1Rem]
        norm_num
        omega
      · rw [if_neg hlt]
        left
        rfl
  · cases hfin

theorem c1_typing_terminates (ds : List Nat) :
    ∀ as : Anim × Session, (∀ d ∈ ds, 1 ≤ d) → c1Inv as →
      (as.1.finished = true ∨ c1Rem as.1 ≤ ds.length) →
      (runTyping "a-1" ds as).1.finished = true := by
  induction ds with
  | nil =>
    intro as _ hinv hor
    rcases hor with hfin | hrem
    · exact hfin
    · obtain ⟨⟨P, pi, ci, fin⟩, s2⟩ := as
      rcases hinv.2 with ⟨hf, hp, hc, _⟩ | ⟨hf, _⟩
      · exfalso
        simp only at hp hc hrem
        simp only [c1Rem, List.length_nil] at hrem
        interval_cases pi
        · rw [c1ParaLen_0] at hc
          rw [if_pos rfl] at hrem
          omega
        · rw [c1ParaLen_1] at hc
          rw [if_neg (by omega)] at hrem
          omega
      · exact hf
  | cons d rest ih =>
    intro as hds hinv hor
    obtain ⟨a1, s2⟩ := as
    rw [runTyping_cons]
    by_cases hfin : a1.finished = true
    · rw [typeChar_of_finished _ _ _ _ hfin]
      exact ih (a1, s2) (fun x hx => hds x (List.mem_cons_of_mem _ hx)) hinv (Or.inl hfin)
    · have hf : a1.finished = false := Bool.eq_false_iff.mpr hfin
      have hd1 : 1 ≤ d := hds d (List.mem_cons_self _ _)
      have hstep := (c1Inv_step a1 s2 d hd1 hinv).1
      have hprog := c1_step_progress a1 s2 d hd1 hinv hf
      refine ih _ (fun x hx => hds x (List.mem_cons_of_mem _ hx)) hstep ?_
      rcases hprog with h | h
      · exact Or.inl h
      · right
        rcases hor with hc | hc
        · exact absurd hc hfin
        · simp only [List.length_cons] at hc
          omega

theorem c1_complete (deltas : List Nat) (hds : ∀ d ∈ deltas, 1 ≤ d)
    (hlen : 24 ≤ deltas.length) :
    (runTyping "a-1" deltas (c1Anim0, c1Session3)).2 = c1Full := by
  have hfin := c1_typing_terminates deltas (c1Anim0, c1Session3) hds c1Inv_init
    (Or.inr (by simp only [c1Anim0, c1Rem]; norm_num; omega))
  have hinv := c1Inv_runTyping deltas hds _ c1Inv_init
  rcases hinv.2 with ⟨hf, _, _, _⟩ | ⟨_, hs⟩
  · rw [hfin] at hf
    cases hf
  · exact hs

/-- C1: for the guest conversation id `guest-123` the history load is skipped
entirely (no fetch, store untouched); sending `Hello` with no attachments
while automated responses are enabled appends exactly one user message and
one empty assistant placeholder; the terminal event
`{done: true, content: "Hi there!\n\nHow can I help?"}` replaces the
placeholder in place by two empty assistant messages with ids `a-1-0` and
`a-1-1`; and along any playback tick sequence (1-2 chars per tick) each
content starts empty, stays a prefix of its paragraph, grows monotonically,
the second paragraph stays empty until the first is complete, and after at
most 24 ticks both equal their full paragraph text. -/
theorem c1_guest_send_stream_scenario :
    (∀ (res : HistoryResult) (now : Nat) (h : Hook),
      historyMount "guest-123" res now h =
        ({ h with historyLoaded := true, historyLoading := false }, false)) ∧
    (∀ (settings : SettingsResult) (st : ChatState),
      resolveAiEnabled settings = true →
      sendMessageStart "u-1" "a-1" "Hello" [] settings 3 st =
        ({ st with
            messages := st.messages ++ [c1User, mkPlaceholder "a-1" 3]
            isLoading := true
            error := none }, true)) ∧
    handleDone "a-1" true c1Reply 5 c1SendSession = (c1Anim0, c1Session3) ∧
    (∀ deltas : List Nat, (∀ d ∈ deltas, 1 ≤ d ∧ d ≤ 2) →
      (c1ContentAt deltas 0 0 = "" ∧ c1ContentAt deltas 0 1 = "") ∧
      (∀ i : Nat,
        PrefixOfStr (c1ContentAt deltas i 0) "Hi there!" ∧
        PrefixOfStr (c1ContentAt deltas i 1) "How can I help?") ∧
      (∀ i : Nat,
        PrefixOfStr (c1ContentAt deltas i 0) (c1ContentAt deltas (i + 1) 0) ∧
        PrefixOfStr (c1ContentAt deltas i 1) (c1ContentAt deltas (i + 1) 1)) ∧
      (∀ i : Nat, c1ContentAt deltas i 1 ≠ "" → c1ContentAt deltas i 0 = "Hi there!") ∧
      (24 ≤ deltas.length →
        c1ContentAt deltas deltas.length 0 = "Hi there!" ∧
        c1ContentAt deltas deltas.length 1 = "How can I help?")) := by
  refine ⟨?_, ?_, ?_, ?_⟩
  · intro res now h
    have hguard : (!(("guest-123" : String) = "") &&
        !(jsStartsWith "guest-123" "guest-")) = false := by decide
    rw [historyMount, hguard]
    simp
  · intro settings st hset
    rw [sendMessageStart, if_pos hset]
    rfl
  · decide
  · intro deltas hds
    have hds1 : ∀ d ∈ deltas, 1 ≤ d := fun d hd => (hds d hd).1
    refine ⟨?_, ?_, ?_, ?_, ?_⟩
    · constructor
      · unfold c1ContentAt c1Trace
        rw [List.take_zero, runTyping_nil]
        decide
      · unfold c1ContentAt c1Trace
        rw [List.take_zero, runTyping_nil]
        decide
    · exact c1_trace_para deltas hds1
    · exact c1_trace_mono deltas hds1
    · exact c1_trace_order deltas hds1
    · intro hlen
      have hc := c1_complete deltas hds1 hlen
      unfold c1ContentAt c1Trace
      rw [List.take_of_length_le (le_refl _)]
      rw [hc]
      exact ⟨contentAt_c1Full_0, contentAt_c1Full_1⟩

theorem c1_witness :
    c1ContentAt (List.replicate 24 1) 24 0 = "Hi there!" ∧
    c1ContentAt (List.replicate 24 1) 24 1 = "How can I help?" := by
  have h := (c1_guest_send_stream_scenario.2.2.2 (List.replicate 24 1)
    (fun d hd => by
      rw [List.eq_of_mem_replicate hd]
      exact ⟨le_refl 1, by norm_num⟩)).2.2.2.2 (by simp)
  simpa using h

/-- C7: while the typing-playback guard is up, any row-reconciliation event —
whatever message array it carries — leaves the session unchanged; the guard
is raised by the terminal-event handler before playback begins, is down once
playback has consumed enough ticks, and afterwards a row-reconciliation event
replaces the store with the parsed, role-normalized server array. -/
theorem c7_reconciliation_guard :
    (∀ (db : Option (List DbMsg)) (fids : List String) (s : Session),
      s.isTyping = true → onRowUpdate db fids s = s) ∧
    (∀ (pid content : String) (now : Nat) (s : Session),
      (handleDone pid true content now s).2.isTyping = true) ∧
    (∀ deltas : List Nat, (∀ d ∈ deltas, 1 ≤ d) → 24 ≤ deltas.length →
      (runTyping "a-1" deltas (c1Anim0, c1Session3)).2.isTyping = false ∧
      ∀ (db : List DbMsg) (fids : List String),
        (onRowUpdate (some db) fids
            (runTyping "a-1" deltas (c1Anim0, c1Session3)).2).chat.messages =
          parseDbMessages db fids) := by
  refine ⟨?_, ?_, ?_⟩
  · intro db fids s h
    simp [onRowUpdate, h]
  · intro pid content now s
    simp [handleDone]
  · intro deltas hds hlen
    have hc := c1_complete deltas hds hlen
    rw [hc]
    exact ⟨rfl, fun db fids => rfl⟩

theorem c7_witness :
    (runTyping "a-1" (List.replicate 24 1) (c1Anim0, c1Session3)).2.isTyping = false ∧
    onRowUpdate (some []) []
        { chat := { messages := [], isLoading := false, error := none }, isTyping := true } =
      { chat := { messages := [], isLoading := false, error := none }, isTyping := true } := by
  constructor
  · exact (c7_reconciliation_guard.2.2 (List.replicate 24 1)
      (fun d hd => by rw [List.eq_of_mem_replicate hd]) (by simp)).1
  · exact c7_reconciliation_guard.1 (some []) [] _ rfl

/-! ### C2 machinery: id uniqueness across the handler transitions -/

theorem mapWithIndex_map (f : Nat → α → β) (g : β → γ) :
    ∀ (i : Nat) (l : List α),
      (mapWithIndex f i l).map g = mapWithIndex (fun k a => g (f k a)) i l := by
  intro i l
  induction l generalizing i with
  | nil => rfl
  | cons x rest ih => simp [mapWithIndex, ih]

theorem mapWithIndex_mem {f : Nat → α → β} :
    ∀ {i : Nat} {l : List α} {b : β}, b ∈ mapWithIndex f i l →
      ∃ k a, i ≤ k ∧ b = f k a := by
  intro i l
  induction l generalizing i with
  | nil => intro b h; cases h
  | cons x rest ih =>
    intro b h
    rcases List.mem_cons.mp h with h | h
    · exact ⟨i, x, le_refl i, h⟩
    · obtain ⟨k, a, hk, hb⟩ := ih h
      exact ⟨k, a, by omega, hb⟩

theorem mapWithIndex_nodup {f : Nat → α → β}
    (hinj : ∀ i j a b, f i a = f j b → i = j) :
    ∀ (i : Nat) (l : List α), (mapWithIndex f i l).Nodup := by
  intro i l
  induction l generalizing i with
  | nil => exact List.nodup_nil
  | cons x rest ih =>
    rw [mapWithIndex, List.nodup_cons]
    refine ⟨?_, ih (i + 1)⟩
    intro hmem
    obtain ⟨k, a, hk, hb⟩ := mapWithIndex_mem hmem
    have := hinj i k x a hb
    omega

theorem flatMap_replace_eq_self [DecidableEq α] (p : α) :
    ∀ l : List α, l.flatMap (fun x => if x = p then [p] else [x]) = l := by
  intro l
  induction l with
  | nil => rfl
  | cons a rest ih =>
    by_cases h : a = p
    · subst h
      simp only [List.flatMap_cons, if_pos rfl, ih]
      rfl
    · simp only [List.flatMap_cons, if_neg h, ih]
      rfl

theorem flatMap_skip_not_mem [DecidableEq α] (p : α) (ds : List α) :
    ∀ l : List α, p ∉ l → l.flatMap (fun x => if x = p then ds else [x]) = l := by
  intro l
  induction l with
  | nil => intro; rfl
  | cons a rest ih =>
    intro h
    have ha : a ≠ p := fun hc => h (hc ▸ List.mem_cons_self a rest)
    simp only [List.flatMap_cons, if_neg ha, ih (fun hc => h (List.mem_cons_of_mem _ hc))]
    rfl

theorem mem_flatMap_replace [DecidableEq α] {p x : α} {ds l : List α}
    (h : x ∈ l.flatMap (fun y => if y = p then ds else [y])) : x ∈ l ∨ x ∈ ds := by
  rw [List.mem_flatMap] at h
  obtain ⟨y, hy, hx⟩ := h
  by_cases hyp : y = p
  · rw [if_pos hyp] at hx
    exact Or.inr hx
  · rw [if_neg hyp] at hx
    rcases List.mem_singleton.mp hx with rfl
    exact Or.inl hy

theorem nodup_flatMap_replace [DecidableEq α] (p : α) (ds : List α) :
    ∀ l : List α, l.Nodup → ds.Nodup → (∀ x ∈ ds, x ∉ l) →
      (l.flatMap (fun x => if x = p then ds else [x])).Nodup := by
  intro l
  induction l with
  | nil => intro _ _ _; simp
  | cons a rest ih =>
    intro hnd hds hdisj
    have hnr := List.nodup_cons.mp hnd
    rw [List.flatMap_cons]
    by_cases h : a = p
    · subst h
      rw [if_pos rfl, flatMap_skip_not_mem _ _ rest hnr.1, List.nodup_append]
      exact ⟨hds, hnr.2, fun x hx hx2 => hdisj x hx (List.mem_cons_of_mem _ hx2)⟩
    · rw [if_neg h]
      have : ([a] ++ rest.flatMap (fun x => if x = p then ds else [x])).Nodup := by
        rw [List.nodup_append]
        refine ⟨List.nodup_singleton a, ?_, ?_⟩
        · exact ih hnr.2 hds fun x hx hx2 => hdisj x hx (List.mem_cons_of_mem _ hx2)
        · intro x hx hx2
          rcases List.mem_singleton.mp hx with rfl
          rcases mem_flatMap_replace hx2 with hc | hc
          · exact hnr.1 hc
          · exact hdisj x hc (List.mem_cons_self _ _)
      simpa using this

theorem convertHistoryMsg_ids (idx : Nat) (m : BackendMsg) (now : Nat) :
    ((convertHistoryMsg idx m now).map (fun x => x.id)).Nodup ∧
    ∀ s ∈ (convertHistoryMsg idx m now).map (fun x => x.id),
      s = historyId idx ∨ ∃ p, s = historyParaId idx p := by
  unfold convertHistoryMsg
  split_ifs with h
  · rw [mapWithIndex_map]
    constructor
    · exact mapWithIndex_nodup (fun i j a b hf => (historyParaId_inj hf).2) 0 _
    · intro s hs
      obtain ⟨k, a, _, hs⟩ := mapWithIndex_mem hs
      exact Or.inr ⟨k, hs⟩
  · constructor
    · simp
    · intro s hs
      rcases List.mem_singleton.mp (by simpa using hs) with rfl
      exact Or.inl rfl

theorem historyFrom_ids (now : Nat) :
    ∀ (data : List BackendMsg) (start : Nat),
      ((historyFrom now start data).map (fun m => m.id)).Nodup ∧
      ∀ s ∈ (historyFrom now start data).map (fun m => m.id),
        ∃ i, start ≤ i ∧ (s = historyId i ∨ ∃ p, s = historyParaId i p) := by
  intro data
  induction data with
  | nil =>
    intro start
    exact ⟨List.nodup_nil, fun s h => absurd h (List.not_mem_nil s)⟩
  | cons m rest ih =>
    intro start
    rw [historyFrom, List.map_append, List.nodup_append]
    obtain ⟨hnd1, hch1⟩ := convertHistoryMsg_ids start m now
    obtain ⟨hnd2, hch2⟩ := ih (start + 1)
    refine ⟨⟨hnd1, hnd2, ?_⟩, ?_⟩
    · intro x hx hx2
      obtain ⟨i, hi, hcase⟩ := hch2 x hx2
      rcases hch1 x hx with h1 | ⟨p, h1⟩ <;> rcases hcase with h2 | ⟨q, h2⟩
      · exact absurd (historyId_inj (h1 ▸ h2)) (by omega)
      · exact historyId_ne_historyParaId start i q (h1 ▸ h2)
      · exact historyId_ne_historyParaId i start p (h2 ▸ h1)
      · exact absurd (historyParaId_inj (h1 ▸ h2)).1 (by omega)
    · intro s hs
      rcases List.mem_append.mp hs with hs | hs
      · obtain h := hch1 s hs
        exact ⟨start, le_refl _, h⟩
      · obtain ⟨i, hi, h⟩ := hch2 s hs
        exact ⟨i, by omega, h⟩

theorem loadHistoryMessages_ids_nodup (data : List BackendMsg) (now : Nat) :
    ((loadHistoryMessages data now).map (fun m => m.id)).Nodup :=
  (historyFrom_ids now data 0).1

theorem typeChar_msgIds (b : String) (d : Nat) (a : Anim) (s : Session) :
    msgIds (typeChar b d (a, s)).2.chat = msgIds s.chat := by
  have hid : ∀ (X : String) (t : String) (m : Message),
      (if m.id = X then { m with content := t } else m).id = m.id := by
    intro X t m
    split_ifs <;> rfl
  rw [typeChar]
  by_cases h1 : a.finished = true
  · simp [h1]
  · simp only [h1, if_false]
    by_cases h2 : a.pIdx ≥ a.paragraphs.length
    · simp [h2]
    · simp only [h2, if_false]
      repeat' split
      all_goals simp [msgIds, List.map_map, Function.comp, hid]

theorem nodup_append_singleton {l : List String} {x : String}
    (h : l.Nodup) (hx : x ∉ l) : (l ++ [x]).Nodup := by
  rw [List.nodup_append]
  refine ⟨h, List.nodup_singleton _, ?_⟩
  intro y hy hy2
  rcases List.mem_singleton.mp hy2 with rfl
  exact hx hy

theorem nodup_append_pair {l : List String} {x y : String}
    (h : l.Nodup) (hx : x ∉ l) (hy : y ∉ l) (hxy : x ≠ y) : (l ++ [x, y]).Nodup := by
  rw [List.nodup_append]
  refine ⟨h, by simp [hxy], ?_⟩
  intro a ha ha2
  rcases List.mem_cons.mp ha2 with rfl | ha2
  · exact hx ha
  · rcases List.mem_singleton.mp ha2 with rfl
    exact hy ha

theorem chatOp_preserves_nodup {s t : Session} (hop : ChatOp s t)
    (h : (msgIds s.chat).Nodup) : (msgIds t.chat).Nodup := by
  cases hop with
  | history data now s =>
    exact loadHistoryMessages_ids_nodup data now
  | sendStart uid pid text atts settings now s hu hp hup =>
    show (msgIds (sendMessageStart uid pid text atts settings now s.chat).1).Nodup
    rw [sendMessageStart]
    split_ifs with he
    · show ((s.chat.messages ++
        [mkUserMessage uid text atts now, mkPlaceholder pid now]).map
          (fun m => m.id)).Nodup
      rw [List.map_append]
      exact nodup_append_pair h hu hp hup
    · show ((s.chat.messages ++ [mkUserMessage uid text atts now]).map
        (fun m => m.id)).Nodup
      rw [List.map_append]
      exact nodup_append_singleton h hu
  | tick baseId d a s =>
    rw [typeChar_msgIds]
    exact h
  | fallbackErr detail s =>
    exact h
  | connError s =>
    exact h
  | broadcast ev fid now s hf =>
    show (msgIds (userOnNewMessage ev fid now s.chat)).Nodup
    rw [userOnNewMessage]
    split_ifs with hc
    · show ((s.chat.messages ++
        [({ id := fid, role := normalizeRole ev.role, content := ev.content,
            timestamp := now, attachments := none,
            source := some ev.source } : Message)]).map
          (fun m => m.id)).Nodup
      rw [List.map_append]
      exact nodup_append_singleton h hf
    · exact h
  | fallbackOk pid resp now s hp =>
    show (msgIds (sendFallbackOk pid resp now s.chat)).Nodup
    cases resp with
    | none => exact h
    | some r =>
      show (msgIds (if r = "" then s.chat
        else { s.chat with
            messages := s.chat.messages ++
              [{ id := pid, role := "assistant", content := r, timestamp := now,
                 attachments := none, source := none }]
            isLoading := false })).Nodup
      split_ifs with hr
      · exact h
      · show ((s.chat.messages ++
          [({ id := pid, role := "assistant", content := r, timestamp := now,
              attachments := none, source := none } : Message)]).map
            (fun m => m.id)).Nodup
        rw [List.map_append]
        exact nodup_append_singleton h hp
  | rowUpdate db fids s hdb =>
    by_cases h1 : s.isTyping = true
    · have heq : onRowUpdate db fids s = s := by simp [onRowUpdate, h1]
      rw [heq]
      exact h
    · by_cases h2 : s.chat.isLoading = true
      · have heq : onRowUpdate db fids s = s := by simp [onRowUpdate, h1, h2]
        rw [heq]
        exact h
      · cases db with
        | none =>
          have heq : onRowUpdate none fids s = s := by simp [onRowUpdate, h1, h2]
          rw [heq]
          exact h
        | some l =>
          have heq : onRowUpdate (some l) fids s =
              { s with chat := { s.chat with messages := parseDbMessages l fids } } := by
            simp [onRowUpdate, h1, h2]
          rw [heq]
          exact hdb l rfl
  | loadMore uid res now s hfresh =>
    show (msgIds (loadMoreMessages uid res now s.chat).1).Nodup
    cases res with
    | fetchError =>
      have heq : (loadMoreMessages uid .fetchError now s.chat).1 = s.chat := by
        simp [loadMoreMessages]
      rw [heq]
      exact h
    | notOk =>
      have heq : (loadMoreMessages uid .notOk now s.chat).1 = s.chat := by
        simp [loadMoreMessages]
      rw [heq]
      exact h
    | okNoMessages =>
      have heq : (loadMoreMessages uid .okNoMessages now s.chat).1 = s.chat := by
        simp [loadMoreMessages]
      rw [heq]
      exact h
    | ok msgs =>
      by_cases h1 : uid = ""
      · have heq : (loadMoreMessages uid (.ok msgs) now s.chat).1 = s.chat := by
          simp [loadMoreMessages, h1]
        rw [heq]
        exact h
      · by_cases hlen : msgs.length > 0
        · have heq : (loadMoreMessages uid (.ok msgs) now s.chat).1 =
              { s.chat with messages := mapWithIndex (fun idx m =>
                { id := historyParaId (loadMoreRequestOffset s.chat + idx) now
                  role := normalizeRole m.role
                  content := m.content
                  timestamp := now
                  attachments := none
                  source := m.source : Message }) 0 msgs ++ s.chat.messages } := by
            simp [loadMoreMessages, h1, hlen]
          rw [heq]
          show ((mapWithIndex (fun idx m =>
              { id := historyParaId (loadMoreRequestOffset s.chat + idx) now
                role := normalizeRole m.role
                content := m.content
                timestamp := now
                attachments := none
                source := m.source : Message }) 0 msgs ++ s.chat.messages).map
            (fun m => m.id)).Nodup
          rw [List.map_append, mapWithIndex_map]
          rw [List.nodup_append]
          refine ⟨?_, h, ?_⟩
          · exact mapWithIndex_nodup (fun i j a b hf => by
              have := (historyParaId_inj hf).1
              omega) 0 msgs
          · intro x hx hx2
            obtain ⟨k, a, _, rfl⟩ := mapWithIndex_mem hx
            exact hfresh _ hx2
        · have heq : (loadMoreMessages uid (.ok msgs) now s.chat).1 = s.chat := by
            simp [loadMoreMessages, h1, hlen]
          rw [heq]
          exact h
  | done pid added content now s hfresh =>
    rw [handleDone]
    split_ifs with hskip
    · exact h
    · show ((s.chat.messages.flatMap (fun m =>
        if m.id = pid then
          mapWithIndex (fun pIdx _ =>
            { id := if (splitParagraphs content).length > 1 then paraId pid pIdx
                    else pid,
              role := "assistant", content := "", timestamp := now,
              attachments := none, source := some "ai" : Message })
            0 (splitParagraphs content)
        else [m])).map (fun m => m.id)).Nodup
      rw [List.map_flatMap]
      have hfun : (fun m : Message =>
          ((if m.id = pid then
              mapWithIndex (fun pIdx _ =>
                { id := if (splitParagraphs content).length > 1 then paraId pid pIdx
                        else pid,
                  role := "assistant", content := "", timestamp := now,
                  attachments := none, source := some "ai" : Message })
                0 (splitParagraphs content)
            else [m]).map (fun m => m.id))) = (fun m : Message =>
          if m.id = pid then
            mapWithIndex (fun pIdx _ =>
              if (splitParagraphs content).length > 1 then paraId pid pIdx else pid)
              0 (splitParagraphs content)
          else [m.id]) := by
        funext m
        by_cases hm : m.id = pid
        · rw [if_pos hm, if_pos hm, mapWithIndex_map]
        · rw [if_neg hm, if_neg hm]
          rfl
      rw [hfun]
      have hswap : s.chat.messages.flatMap (fun m : Message =>
          if m.id = pid then
            mapWithIndex (fun pIdx _ =>
              if (splitParagraphs content).length > 1 then paraId pid pIdx else pid)
              0 (splitParagraphs content)
          else [m.id]) = (s.chat.messages.map (fun m => m.id)).flatMap
            (fun x : String =>
              if x = pid then
                mapWithIndex (fun pIdx _ =>
                  if (splitParagraphs content).length > 1 then paraId pid pIdx else pid)
                  0 (splitParagraphs content)
              else [x]) :=
        (List.flatMap_map (fun m : Message => m.id)
          (fun x : String =>
            if x = pid then
              mapWithIndex (fun pIdx _ =>
                if (splitParagraphs content).length > 1 then paraId pid pIdx else pid)
                0 (splitParagraphs content)
            else [x]) s.chat.messages).symm
      rw [hswap]
      by_cases hgt : (splitParagraphs content).length > 1
      · have hds : (mapWithIndex (fun pIdx (_ : String) =>
            if (splitParagraphs content).length > 1 then paraId pid pIdx else pid)
            0 (splitParagraphs content)) = mapWithIndex (fun pIdx _ =>
            paraId pid pIdx) 0 (splitParagraphs content) := by
          simp [hgt]
        rw [hds]
        apply nodup_flatMap_replace pid _ _ h
        · exact mapWithIndex_nodup (fun i j a b hf => paraId_inj hf) 0 _
        · intro x hx
          obtain ⟨k, a, _, rfl⟩ := mapWithIndex_mem hx
          exact hfresh k
      · have hle : (splitParagraphs content).length = 0 ∨
            (splitParagraphs content).length = 1 := by omega
        rcases hle with h0 | h1len
        · rw [List.length_eq_zero.mp h0]
          apply nodup_flatMap_replace pid _ _ h
          · exact List.nodup_nil
          · intro x hx
            cases hx
        · obtain ⟨q, hq⟩ := List.length_eq_one.mp h1len
          rw [hq]
          have hsing : mapWithIndex (fun pIdx (_ : String) =>
              if ([q] : List String).length > 1 then paraId pid pIdx else pid)
              0 [q] = [pid] := by
            simp [mapWithIndex]
          rw [hsing, flatMap_replace_eq_self]
          exact h

/-- C2 (amended): along every sequence of history-load, streaming-path send,
typing-tick, fallback-failure, realtime-bridge and load-more operations
(fallback success included only while no message carries the placeholder id),
with fresh client-generated ids and server rows of distinct ids, the Message
Store's ids stay pairwise distinct. -/
theorem c2_unique_ids (s : Session) (h : ChatReachable s) : (msgIds s.chat).Nodup := by
  induction h with
  | init => exact List.nodup_nil
  | step _ hop ih => exact chatOp_preserves_nodup hop ih

theorem c2_witness : (msgIds c2End.chat).Nodup :=
  c2_unique_ids c2End (ChatReachable.step
    (ChatReachable.step ChatReachable.init
      (ChatOp.history c2HistoryData 2 initialSession))
    (ChatOp.sendStart "u-3" "a-3" "yo" [] .fetchError 4 c2Mid
      (by decide) (by decide) (by decide)))

/-- C2 counterexample: the claim as stated fails — a send with the assistant
placeholder present followed by the non-streaming fallback's success path
appends a second message bearing the placeholder's id, so the store holds the
duplicate id `a-2` twice. -/
theorem c2_counterexample :
    msgIds (sendFallbackOk "a-2" (some "Deal!") 8 c2Start) = ["u-2", "a-2", "a-2"] ∧
    ¬ (msgIds (sendFallbackOk "a-2" (some "Deal!") 8 c2Start)).Nodup := by
  constructor
  · decide
  · decide
